import Mathlib

/-!
# Verification of the gedcom_parser line/record engine

A shallow embedding of the core of the gedcom_parser repository
(src/parsers/entry.py, src/parsers/line.py, src/parsers/parse.py,
src/parsers/gedcom_file.py), together with theorems settling the
specification claims about it.

Python strings are modelled as Lean `String` (a list of characters, which
matches Python's code-point semantics for the ASCII data involved).  Python
`int` values arising here are non-negative (regex digits), so they are
modelled as `Nat`.  Python runtime exceptions (AssertionError, NameError,
IndexError, ValueError, RuntimeError) are modelled by an explicit `PyErr`
error monad (`Except PyErr`).

All regular expressions of the source are deterministic on the inputs the
program feeds them (lines obtained by splitting the file on newline, hence
newline-free); they are modelled by explicit character-list parsers.
-/

namespace GedcomSpec

/-- The Python exceptions that the modelled code can raise. -/
inductive PyErr where
  | assertionError
  | nameError
  | indexError
  | valueError
  | runtimeError
deriving DecidableEq

/-- Python len() of a string: number of code points. -/
def pyLen (s : String) : Nat := s.data.length

/-- Python s[:n] for n greater or equal 0. -/
def strTake (s : String) (n : Nat) : String := String.mk (s.data.take n)

/-- Matches the character class [0-9]. -/
def isDigitCh (c : Char) : Bool := decide ('0' ≤ c) && decide (c ≤ '9')

/-- Matches the character class [0-9A-Z_] used by the line tag regex. -/
def isTagCh (c : Char) : Bool :=
  isDigitCh c || (decide ('A' ≤ c) && decide (c ≤ 'Z')) || decide (c = '_')

/-- Matches the character class [A-Z_] used by the empty-line regex. -/
def isUpperTagCh (c : Char) : Bool :=
  (decide ('A' ≤ c) && decide (c ≤ 'Z')) || decide (c = '_')

/-- Matches the character class backslash-w (word character) of parse.py. -/
def isWordCh (c : Char) : Bool :=
  isDigitCh c || (decide ('A' ≤ c) && decide (c ≤ 'Z'))
    || (decide ('a' ≤ c) && decide (c ≤ 'z')) || decide (c = '_')

/-- Python int() applied to a string of decimal digits. -/
def natOfDigits (l : List Char) : Nat :=
  l.foldl (fun a c => 10 * a + (c.toNat - 48)) 0

/-- Decimal digits of n, high-order first, with explicit fuel
(fuel strictly above n always suffices).  Empty for n = 0. -/
def natToStrAux : Nat → Nat → List Char
  | 0, _ => []
  | fuel + 1, n =>
    if n = 0 then [] else natToStrAux fuel (n / 10) ++ [Char.ofNat (48 + n % 10)]

/-- Python str() applied to a non-negative int: canonical decimal notation. -/
def natToStr (n : Nat) : String :=
  if n = 0 then "0" else String.mk (natToStrAux (n + 1) n)

/-- Python line.endswith(a newline) followed by line[:-1]. -/
def stripNl (s : String) : String :=
  if s.data.getLast? = some '\n' then String.mk s.data.dropLast else s

/-- Python line.startswith(the zero digit). -/
def startsWith0 (s : String) : Bool :=
  match s.data with
  | c :: _ => decide (c = '0')
  | [] => false

/-- Python (a plus sign).join(l). -/
def joinPlus : List String → String
  | [] => ""
  | [x] => x
  | x :: y :: xs => x ++ "+" ++ joinPlus (y :: xs)

/-! ## Decimal notation: basic lemmas -/

theorem natToStrAux_fuel_eq :
    ∀ f₁ : Nat, ∀ f₂ n : Nat, n < f₁ → n < f₂ →
      natToStrAux f₁ n = natToStrAux f₂ n := by
  intro f₁
  induction f₁ with
  | zero => intro f₂ n h₁ _; omega
  | succ f₁ ih =>
    intro f₂ n h₁ h₂
    match f₂, h₂ with
    | f₂ + 1, h₂ =>
      by_cases hn : n = 0
      · simp [natToStrAux, hn]
      · have hd : n / 10 < n := Nat.div_lt_self (by omega) (by omega)
        simp only [natToStrAux, hn, if_false]
        rw [ih f₂ (n / 10) (by omega) (by omega)]

theorem natToStr_data_step (n d : Nat) (hn : 1 ≤ n) (hd : d < 10) :
    (natToStr (10 * n + d)).data = (natToStr n).data ++ [Char.ofNat (48 + d)] := by
  have hnz : 10 * n + d ≠ 0 := by omega
  have hdiv : (10 * n + d) / 10 = n := by
    rw [Nat.mul_add_div (by omega)]
    simp [Nat.div_eq_of_lt hd]
  have hmod : (10 * n + d) % 10 = d := by
    rw [Nat.mul_add_mod]
    exact Nat.mod_eq_of_lt hd
  have hne : n ≠ 0 := by omega
  simp only [natToStr, hnz, if_false, hne]
  show natToStrAux (10 * n + d + 1) (10 * n + d) = natToStrAux (n + 1) n ++ [Char.ofNat (48 + d)]
  have : natToStrAux (10 * n + d + 1) (10 * n + d)
      = natToStrAux (10 * n + d) ((10 * n + d) / 10)
        ++ [Char.ofNat (48 + (10 * n + d) % 10)] := by
    simp [natToStrAux, hnz]
  rw [this, hdiv, hmod]
  rw [natToStrAux_fuel_eq (10 * n + d) (n + 1) n (by omega) (by omega)]

theorem digit_toNat_ofNat : ∀ d : Nat, d < 10 → (Char.ofNat (48 + d)).toNat = 48 + d := by
  decide

theorem natOfDigits_append (l : List Char) (c : Char) :
    natOfDigits (l ++ [c]) = 10 * natOfDigits l + (c.toNat - 48) := by
  simp [natOfDigits, List.foldl_append]

theorem natToStrAux_zero : ∀ f : Nat, natToStrAux f 0 = [] := by
  intro f; cases f <;> simp [natToStrAux]

theorem natToStr_data_single (n : Nat) (hn : n ≠ 0) (h10 : n < 10) :
    (natToStr n).data = [Char.ofNat (48 + n)] := by
  simp only [natToStr, hn, if_false]
  show natToStrAux (n + 1) n = [Char.ofNat (48 + n)]
  match n, hn with
  | m + 1, _ =>
    show natToStrAux (m + 1 + 1) (m + 1) = [Char.ofNat (48 + (m + 1))]
    have hq : (m + 1) / 10 = 0 := Nat.div_eq_of_lt h10
    have hm : (m + 1) % 10 = m + 1 := Nat.mod_eq_of_lt h10
    simp only [natToStrAux, Nat.succ_ne_zero, if_false, hq, hm, natToStrAux_zero,
      List.nil_append]
    simp

/-- Decimal round trip: parsing back the canonical notation of n yields n. -/
theorem natOfDigits_natToStr (n : Nat) : natOfDigits (natToStr n).data = n := by
  induction n using Nat.strong_induction_on with
  | _ n ih =>
    by_cases h10 : n < 10
    · by_cases hn : n = 0
      · subst hn; decide
      · rw [natToStr_data_single n hn h10]
        have : natOfDigits [Char.ofNat (48 + n)] = 10 * 0 + ((Char.ofNat (48 + n)).toNat - 48) := by
          simp [natOfDigits]
        rw [this, digit_toNat_ofNat n h10]
        omega
    · have hdm : 10 * (n / 10) + n % 10 = n := by
        have := Nat.div_add_mod n 10
        omega
      have hq : 1 ≤ n / 10 := by
        have := Nat.div_le_div_right (c := 10) (le_of_not_lt h10)
        simpa using this
      have hstep := natToStr_data_step (n / 10) (n % 10) hq (Nat.mod_lt _ (by omega))
      rw [hdm] at hstep
      rw [hstep, natOfDigits_append, ih (n / 10) (by omega),
        digit_toNat_ofNat (n % 10) (Nat.mod_lt _ (by omega))]
      omega

theorem natToStr_injective (a b : Nat) (h : natToStr a = natToStr b) : a = b := by
  have := congrArg String.data h
  have ha := natOfDigits_natToStr a
  have hb := natOfDigits_natToStr b
  rw [this] at ha
  omega

theorem digit_isDigitCh : ∀ d : Nat, d < 10 → isDigitCh (Char.ofNat (48 + d)) = true := by
  decide

theorem natToStrAux_digits :
    ∀ f n : Nat, ∀ c ∈ natToStrAux f n, isDigitCh c = true := by
  intro f
  induction f with
  | zero => intro n c hc; simp [natToStrAux] at hc
  | succ f ih =>
    intro n c hc
    by_cases hn : n = 0
    · simp [natToStrAux, hn] at hc
    · simp only [natToStrAux, hn, if_false, List.mem_append, List.mem_singleton] at hc
      rcases hc with hc | hc
      · exact ih (n / 10) c hc
      · subst hc
        exact digit_isDigitCh (n % 10) (Nat.mod_lt _ (by omega))

theorem natToStr_digits (n : Nat) : ∀ c ∈ (natToStr n).data, isDigitCh c = true := by
  by_cases hn : n = 0
  · subst hn; decide
  · simp only [natToStr, hn, if_false]
    exact natToStrAux_digits (n + 1) n

theorem natToStr_ne_nil (n : Nat) : (natToStr n).data ≠ [] := by
  by_cases h10 : n < 10
  · by_cases hn : n = 0
    · subst hn; decide
    · rw [natToStr_data_single n hn h10]; simp
  · have hdm : 10 * (n / 10) + n % 10 = n := by
      have := Nat.div_add_mod n 10
      omega
    have hq : 1 ≤ n / 10 := by
      have := Nat.div_le_div_right (c := 10) (le_of_not_lt h10)
      simpa using this
    have hstep := natToStr_data_step (n / 10) (n % 10) hq (Nat.mod_lt _ (by omega))
    rw [hdm] at hstep
    rw [hstep]
    simp

/-! ## String and list helpers -/

theorem string_append_right_cancel (a x y : String) (h : a ++ x = a ++ y) : x = y := by
  apply String.ext
  have := congrArg String.data h
  simp only [String.data_append] at this
  exact List.append_cancel_left this

/-- Maximal-prefix split by a character predicate: the greedy behaviour of
a leading character-class-plus regex group. -/
def spanCh (p : Char → Bool) : List Char → List Char × List Char
  | [] => ([], [])
  | c :: cs =>
    if p c then
      let r := spanCh p cs
      (c :: r.1, r.2)
    else ([], c :: cs)

/-- spanCh over a list whose prefix satisfies p and whose continuation starts
with a character refuting p splits exactly at the boundary. -/
theorem spanCh_exact (p : Char → Bool) :
    ∀ xs ys : List Char, (∀ c ∈ xs, p c = true) →
      (∀ y yr, ys = y :: yr → p y = false) →
      spanCh p (xs ++ ys) = (xs, ys) := by
  intro xs
  induction xs with
  | nil =>
    intro ys _ hys
    cases ys with
    | nil => rfl
    | cons y yr =>
      have := hys y yr rfl
      simp [spanCh, this]
  | cons x xs ih =>
    intro ys hxs hys
    have hx : p x = true := hxs x (List.mem_cons_self x xs)
    have := ih ys (fun c hc => hxs c (List.mem_cons_of_mem x hc)) hys
    simp [spanCh, hx, this]

/-! ## The Line codec (entry.py class Line)

entry.py stores depth via int(), tag as the matched [0-9A-Z_]+ token and
tag_value as the optional rest of the line (None when the group is absent).
-/

/-- One parsed gedcom line: depth, tag and optional value
(entry.py class Line; depth is stored as int by the depth setter). -/
structure Line where
  depth : Nat
  tag : String
  tag_value : Option String
deriving DecidableEq

/-- Model of the anchored regex of entry.py Line._LINE_RE,
([0-9]+) space ([0-9A-Z_]+) optionally followed by space (.*), on
newline-free input (every line handed to it comes from splitting the file
text on newlines).  None models the ValueError raised by from_str. -/
def Line.from_str (s : String) : Option Line :=
  let r := spanCh isDigitCh s.data
  if r.1 = [] then none
  else
    match r.2 with
    | ' ' :: r2 =>
      let t := spanCh isTagCh r2
      if t.1 = [] then none
      else
        match t.2 with
        | [] => some ⟨natOfDigits r.1, String.mk t.1, none⟩
        | ' ' :: rest => some ⟨natOfDigits r.1, String.mk t.1, some (String.mk rest)⟩
        | _ => none
    | _ => none

/-- entry.py Line.to_str: depth and tag joined by a space, then the value
after another space when it is present. -/
def Line.to_str (l : Line) : String :=
  let ret := natToStr l.depth ++ " " ++ l.tag
  match l.tag_value with
  | none => ret
  | some v => ret ++ " " ++ v

/-! ## Continuation-line regexes (entry.py Entry constants) -/

/-- Maximum gedcom line length (entry.py GEDCOM_MAX_LINE_LENGTH). -/
def GEDCOM_MAX_LINE_LENGTH : Nat := 80

/-- entry.py Entry._EMPTY_LINE_PLACEHOLDER. -/
def EMPTY_LINE_PLACEHOLDER : String := "<<NONE>>"

/-- entry.py Entry._CONT_PLACEHOLDER. -/
def CONT_PLACEHOLDER : String := "<<CONT>>"

/-- entry.py Entry._MISSING_DATA_PLACEHOLDER. -/
def MISSING_DATA_PLACEHOLDER : String := "<<MISSING DATA>>"

/-- Model of entry.py Entry._CONT_RE, digits space CONT space (.*), an
unanchored prefix match whose value group is the run of non-newline
characters after the literal. -/
def cont_match (s : String) : Option String :=
  if (spanCh isDigitCh s.data).1 = [] then none
  else
    match (spanCh isDigitCh s.data).2 with
    | ' ' :: 'C' :: 'O' :: 'N' :: 'T' :: ' ' :: rest =>
      some (String.mk (rest.takeWhile (fun c => !decide (c = '\n'))))
    | _ => none

/-- Model of entry.py Entry._CONC_RE, digits space CONC space (.*). -/
def conc_match (s : String) : Option String :=
  if (spanCh isDigitCh s.data).1 = [] then none
  else
    match (spanCh isDigitCh s.data).2 with
    | ' ' :: 'C' :: 'O' :: 'N' :: 'C' :: ' ' :: rest =>
      some (String.mk (rest.takeWhile (fun c => !decide (c = '\n'))))
    | _ => none

/-- Model of entry.py Entry._EMPTY_LINE_RE, anchored digits space
[A-Z_] three to five times. -/
def empty_line_match (s : String) : Bool :=
  let r := spanCh isDigitCh s.data
  if r.1 = [] then false
  else
    match r.2 with
    | ' ' :: rest =>
      decide (3 ≤ rest.length) && decide (rest.length ≤ 5) && rest.all isUpperTagCh
    | _ => false

/-- Model of entry.py Entry._FIRST_LINE_RE, anchored
0 space at-sign [IFS] digits at-sign space (INDI or FAM or SOUR),
returning the id and type groups. -/
def first_line_match (s : String) : Option (String × String) :=
  match s.data with
  | '0' :: ' ' :: '@' :: c :: rest =>
    if c = 'I' ∨ c = 'F' ∨ c = 'S' then
      let r := spanCh isDigitCh rest
      if r.1 = [] then none
      else
        match r.2 with
        | '@' :: ' ' :: ty =>
          if ty = ['I', 'N', 'D', 'I'] ∨ ty = ['F', 'A', 'M'] ∨ ty = ['S', 'O', 'U', 'R'] then
            some (String.mk ('@' :: c :: r.1 ++ ['@']), String.mk ty)
          else none
        | _ => none
    else none
  | _ => none

/-! ## parse.py regex variants (older Entry in src/parsers/parse.py) -/

/-- Model of parse.py self.cont_re, digits space CONT space, unanchored; the
value recovered by split is everything after the literal. -/
def cont_matchP (s : String) : Option String :=
  let r := spanCh isDigitCh s.data
  if r.1 = [] then none
  else
    match r.2 with
    | ' ' :: 'C' :: 'O' :: 'N' :: 'T' :: ' ' :: rest => some (String.mk rest)
    | _ => none

/-- Model of parse.py self.conc_re, digits space CONC space, unanchored. -/
def conc_matchP (s : String) : Option String :=
  let r := spanCh isDigitCh s.data
  if r.1 = [] then none
  else
    match r.2 with
    | ' ' :: 'C' :: 'O' :: 'N' :: 'C' :: ' ' :: rest => some (String.mk rest)
    | _ => none

/-- Model of parse.py self.empty_line_re, anchored digits space word-char
three to four times. -/
def empty_line_matchP (s : String) : Bool :=
  let r := spanCh isDigitCh s.data
  if r.1 = [] then false
  else
    match r.2 with
    | ' ' :: rest =>
      decide (3 ≤ rest.length) && decide (rest.length ≤ 4) && rest.all isWordCh
    | _ => false

/-! ## Continuation reconciliation, decode paths -/

/-- Loop body of entry.py Entry.remove_cont_conc.  The accumulator ret holds
the processed lines, skip tells whether the current run of continuation lines
has already been handled.  On a continuation line the source reads
prev_line from the end of ret; with an empty ret that read corresponds to the
failed assert i greater than 0 (a continuation can only appear at index 0
when ret is still empty).  Note that of the three placeholder branches only
the truncation branch assigns back into ret; the other two assign the local
variable prev_line, which the source then discards. -/
def remove_aux : Bool → List String → List String → Except PyErr (List String)
  | _, ret, [] => .ok ret
  | skip, ret, line :: rest =>
    if (cont_match (stripNl line)).isSome || (conc_match (stripNl line)).isSome then
      if skip then remove_aux true ret rest
      else
        match ret.getLast? with
        | none => .error .assertionError
        | some prev =>
          if pyLen prev > GEDCOM_MAX_LINE_LENGTH - pyLen MISSING_DATA_PLACEHOLDER then
            remove_aux true
              (ret.dropLast
                ++ [strTake prev (GEDCOM_MAX_LINE_LENGTH - pyLen MISSING_DATA_PLACEHOLDER)
                    ++ MISSING_DATA_PLACEHOLDER]) rest
          else
            remove_aux true ret rest
    else remove_aux false (ret ++ [stripNl line]) rest

/-- entry.py Entry.remove_cont_conc applied to the body lines. -/
def remove_cont_conc (lines : List String) : Except PyErr (List String) :=
  remove_aux false [] lines

/-- Loop body of parse.py Entry.remove_cont_conc: same structure, but all
three placeholder branches write back into ret, and the empty-line regex is
the parse.py one. -/
def remove_auxP : Bool → List String → List String → Except PyErr (List String)
  | _, ret, [] => .ok ret
  | skip, ret, line :: rest =>
    if (cont_matchP (stripNl line)).isSome || (conc_matchP (stripNl line)).isSome then
      if skip then remove_auxP true ret rest
      else
        match ret.getLast? with
        | none => .error .assertionError
        | some prev =>
          if pyLen prev > GEDCOM_MAX_LINE_LENGTH - pyLen MISSING_DATA_PLACEHOLDER then
            remove_auxP true
              (ret.dropLast
                ++ [strTake prev (GEDCOM_MAX_LINE_LENGTH - pyLen MISSING_DATA_PLACEHOLDER)
                    ++ MISSING_DATA_PLACEHOLDER]) rest
          else if empty_line_matchP prev then
            remove_auxP true (ret.dropLast ++ [prev ++ " " ++ MISSING_DATA_PLACEHOLDER]) rest
          else
            remove_auxP true (ret.dropLast ++ [prev ++ MISSING_DATA_PLACEHOLDER]) rest
    else remove_auxP false (ret ++ [stripNl line]) rest

/-- parse.py Entry.remove_cont_conc applied to the body lines. -/
def remove_cont_concP (lines : List String) : Except PyErr (List String) :=
  remove_auxP false [] lines

/-- Loop body of entry.py Entry.collapse_cont_conc.  A CONT line folds its
value onto the previous line after the CONT placeholder (with a separating
space when the previous line is bare depth-and-tag); a CONC line appends its
value directly and asserts the previous line is not bare; other lines are
appended.  The asserts i not 0 correspond to an empty ret. -/
def collapse_aux : List String → List String → Except PyErr (List String)
  | ret, [] => .ok ret
  | ret, line :: rest =>
    match cont_match (stripNl line) with
    | some v =>
      match ret.getLast? with
      | none => .error .assertionError
      | some prev =>
        if empty_line_match prev then
          collapse_aux (ret.dropLast ++ [prev ++ " " ++ CONT_PLACEHOLDER ++ v]) rest
        else
          collapse_aux (ret.dropLast ++ [prev ++ CONT_PLACEHOLDER ++ v]) rest
    | none =>
      match conc_match (stripNl line) with
      | some v =>
        match ret.getLast? with
        | none => .error .assertionError
        | some prev =>
          if empty_line_match prev then .error .assertionError
          else collapse_aux (ret.dropLast ++ [prev ++ v]) rest
      | none => collapse_aux (ret ++ [stripNl line]) rest

/-- entry.py Entry.collapse_cont_conc applied to the body lines. -/
def collapse_cont_conc (lines : List String) : Except PyErr (List String) :=
  collapse_aux [] lines

/-! ## Continuation reconciliation, encode path -/

/-- entry.py Entry.add_cont_conc.  The function is declared a staticmethod
but its body immediately evaluates self.ENTRY_DEBUG (line 412), and self is
not bound inside a staticmethod, so every call raises NameError before the
loop is reached. -/
def add_cont_conc (_lines : List String) : Except PyErr (List String) :=
  .error .nameError

/-- The helper get_tag_value_chunk of entry.py add_cont_conc with the two
debug guards removed.  For a line with a value the condition at lines
369-372 evaluates self._CONT_PLACEHOLDER (directly when the length test is
false, and at line 373 when it is true); self is unbound in the
staticmethod, so any non-None tag_value raises NameError.  A None tag_value
returns the input unchanged before touching self. -/
def get_tag_value_chunk_nodebug (_depth : Nat) (tag : String) (tag_value : Option String) :
    Except PyErr (Bool × String × Option String × Option String) :=
  match tag_value with
  | none => .ok (false, tag, none, none)
  | some _ => .error .nameError

/-- entry.py add_cont_conc with the two broken debug guards (lines 412 and
440) removed, to exhibit the behaviour of the rest of the loop: the first
emit at line 428 formats tag_value with an f-string even when it is None,
producing the literal text None. -/
def add_cont_conc_nodebug : List String → Except PyErr (List String)
  | [] => .ok []
  | line :: rest =>
    match Line.from_str line with
    | none => .error .valueError
    | some l =>
      match get_tag_value_chunk_nodebug l.depth l.tag l.tag_value with
      | .error e => .error e
      | .ok (_, _, tv, _) =>
        let emitted :=
          natToStr l.depth ++ " " ++ l.tag ++ " "
            ++ (match tv with | none => "None" | some v => v)
        match add_cont_conc_nodebug rest with
        | .error e => .error e
        | .ok out => .ok (emitted :: out)

/-! ## The Entry record model -/

/-- The decoded state of an entry.py Entry: header id and type, the two
policy flags and the stored Line objects. -/
structure Entry where
  id : String
  type : String
  force_string_dates : Bool
  no_cont_conc : Bool
  lines : List Line
deriving DecidableEq

/-- Applies Line.from_str to every processed line, as the entry.py lines
setter does. -/
def parse_lines : List String → Except PyErr (List Line)
  | [] => .ok []
  | s :: rest =>
    match Line.from_str s with
    | none => .error .valueError
    | some l =>
      match parse_lines rest with
      | .error e => .error e
      | .ok ls => .ok (l :: ls)

/-- entry.py Entry construction: the first line must match _FIRST_LINE_RE
(the assert in get_first_line_dict), the remaining lines go through the
policy-selected decode step and are stored as Line objects. -/
def mk_entry (lines : List String) (force_string_dates no_cont_conc : Bool) :
    Except PyErr Entry :=
  match lines with
  | [] => .error .indexError
  | first :: body =>
    match first_line_match first with
    | none => .error .assertionError
    | some (eid, ety) =>
      match (if no_cont_conc then remove_cont_conc body else collapse_cont_conc body) with
      | .error e => .error e
      | .ok processed =>
        match parse_lines processed with
        | .error e => .error e
        | .ok ls => .ok ⟨eid, ety, force_string_dates, no_cont_conc, ls⟩

/-- The entry.py lines property: serialize the stored Line objects and pass
them to add_cont_conc. -/
def entry_lines (e : Entry) : Except PyErr (List String) :=
  add_cont_conc (e.lines.map Line.to_str)

/-! ## The row flattener (to_col_name_dict)

The Python dict built here only ever receives fresh keys (the while loop
runs until the candidate key is free), so it is modelled as an association
list in insertion order.
-/

/-- The Python slice active_tags[: depth - 1] guarded by
depth less-or-equal len(active_tags) + 1; Python depth - 1 is -1 when depth
is 0, and a slice ending at -1 drops the last element. -/
def trunc_tags (tags : List String) (depth : Nat) : List String :=
  if depth ≤ tags.length + 1 then
    if depth = 0 then tags.dropLast else tags.take (depth - 1)
  else tags

/-- The last stack segment after s disambiguation rounds: the original tag
for s = 0, and tag, separator, str(s) afterwards (entry.py line 507 with
_SUFFIX_SEPARATOR, parse.py line 287 with an underscore). -/
def suffTag (sep tag : String) (s : Nat) : String :=
  if s = 0 then tag else tag ++ sep ++ natToStr s

/-- The candidate column key tried in round s of the collision loop. -/
def candKey (sep : String) (pre : List String) (tag : String) (s : Nat) : String :=
  joinPlus (pre ++ [suffTag sep tag s])

/-- The while loop of to_col_name_dict (entry.py lines 504-507): while the
joined key is already present, bump the suffix and rewrite the last stack
segment.  Python iterates unboundedly; fuel one above the number of existing
keys always suffices (suffix_loop_fresh below), so the fuelled function
agrees with the source. -/
def suffix_loop (sep : String) (keys : List String) (pre : List String) (tag : String) :
    Nat → Nat → List String
  | 0, s => pre ++ [suffTag sep tag s]
  | fuel + 1, s =>
    if candKey sep pre tag s ∈ keys then suffix_loop sep keys pre tag fuel (s + 1)
    else pre ++ [suffTag sep tag s]

/-- Value processing of entry.py to_col_name_dict lines 491-496: a None
tag_value becomes the empty-line placeholder; a DATE line with a value and
force_string_dates set evaluates not tag.startswith(quote) where tag is an
undefined name, raising NameError; otherwise the value is used as is. -/
def flat_value (force_string_dates : Bool) (l : Line) : Except PyErr String :=
  match l.tag_value with
  | none => .ok EMPTY_LINE_PLACEHOLDER
  | some v =>
    if l.tag = "DATE" ∧ force_string_dates then .error .nameError
    else .ok v

/-- The single-quote character, kept out of string literals. -/
def squote : String := String.mk [Char.ofNat 39]

/-- Value processing of parse.py to_col_name_dict lines 276-282: None
becomes the placeholder; a DATE value under force_string_dates is prefixed
with a quote unconditionally (no already-prefixed check). -/
def flat_valueP (force_string_dates : Bool) (l : Line) : Except PyErr String :=
  match l.tag_value with
  | none => .ok EMPTY_LINE_PLACEHOLDER
  | some v =>
    if force_string_dates ∧ l.tag = "DATE" then .ok (squote ++ v)
    else .ok v

/-- Shared loop of to_col_name_dict, parameterised by the suffix separator
(entry.py tilde, parse.py underscore) and the value-processing step.  For
each stored line: truncate the active-tag stack by the line's depth, push
the tag, process the value, disambiguate the joined key against the keys
already in ret and append the pair. -/
def to_col_aux (sep : String) (fv : Line → Except PyErr String) :
    List (String × String) → List String → List Line → Except PyErr (List (String × String))
  | ret, _, [] => .ok ret
  | ret, activeTags, l :: rest =>
    let pre := trunc_tags activeTags l.depth
    match fv l with
    | .error e => .error e
    | .ok v =>
      let keys := ret.map Prod.fst
      let tags := suffix_loop sep keys pre l.tag (keys.length + 1) 0
      to_col_aux sep fv (ret ++ [(joinPlus tags, v)]) tags rest

/-- entry.py Entry.to_col_name_dict. -/
def to_col_name_dict (e : Entry) : Except PyErr (List (String × String)) :=
  to_col_aux "~" (flat_value e.force_string_dates)
    [("id", e.id), ("tag_type", e.type)] [] e.lines

/-- parse.py Entry.to_col_name_dict. -/
def to_col_name_dictP (e : Entry) : Except PyErr (List (String × String)) :=
  to_col_aux "_" (flat_valueP e.force_string_dates)
    [("id", e.id), ("tag_type", e.type)] [] e.lines

/-! ## The section scanner (gedcom_file.py GedcomFile) -/

/-- The three record categories of gedcom_file.py. -/
inductive SectionKind where
  | indi
  | fam
  | sour
deriving DecidableEq

/-- Model of the anchored patterns _INDI_REGEX, _FAM_REGEX, _SOUR_REGEX:
0 space at-sign letter digits at-sign space TYPE. -/
def sectionRe (k : SectionKind) (s : String) : Bool :=
  match s.data with
  | '0' :: ' ' :: '@' :: c :: rest =>
    let r := spanCh isDigitCh rest
    if r.1 = [] then false
    else
      match k with
      | .indi => decide (c = 'I') && decide (r.2 = '@' :: ' ' :: ['I', 'N', 'D', 'I'])
      | .fam => decide (c = 'F') && decide (r.2 = '@' :: ' ' :: ['F', 'A', 'M'])
      | .sour => decide (c = 'S') && decide (r.2 = '@' :: ' ' :: ['S', 'O', 'U', 'R'])
  | _ => false

/-- Forward enumeration with break of
gedcom_file.py _get_section_start_index. -/
def startScan (pat : String → Bool) : List String → Nat → Option Nat
  | [], _ => none
  | a :: rest, i => if pat a then some i else startScan pat rest (i + 1)

/-- gedcom_file.py _get_section_start_index: index of the first line
matching the section pattern, None when absent. -/
def get_section_start_index (lines : List String) (k : SectionKind) : Option Nat :=
  startScan (sectionRe k) lines 0

/-- The inner while loop of _get_section_end_index (lines 249-252), acting
on the suffix of the line list starting at absolute index i: while the
current line does not start with the digit 0, advance and read the next
line — an out-of-bounds read (no later line starting with 0) raises
IndexError; reaching a line starting with 0 records the previous index. -/
def endScanInner : List String → Nat → Except PyErr (Option Nat)
  | [], _ => .ok none
  | a :: rest, i =>
    if startsWith0 a then .ok none
    else
      match rest with
      | [] => .error .indexError
      | b :: _ =>
        if startsWith0 b then .ok (some i)
        else endScanInner rest (i + 1)

/-- The outer backward while loop of _get_section_end_index (condition
i greater than 0, so index 0 is never examined): find the last line matching
the pattern, then run the inner forward walk from the following index. -/
def endScanOuter (lines : List String) (pat : String → Bool) : Nat → Except PyErr (Option Nat)
  | 0 => .ok none
  | i + 1 =>
    if pat (lines.getD (i + 1) "") then endScanInner (lines.drop (i + 2)) (i + 2)
    else endScanOuter lines pat i

/-- gedcom_file.py _get_section_end_index. -/
def get_section_end_index (lines : List String) (k : SectionKind) : Except PyErr (Option Nat) :=
  endScanOuter lines (sectionRe k) (lines.length - 1)

/-- The j-advancing inner loop of _get_section_entries (line 167): first
index at or after i whose line starts with 0, or the length of the list. -/
def nextZero : List String → Nat → Nat
  | [], j => j
  | a :: rest, j => if startsWith0 a then j else nextZero rest (j + 1)

/-- The record-chunking loop of _get_section_entries (lines 163-185),
fuelled (i strictly increases each round, so fuel endIdx + 2 suffices from
any start at or below endIdx + 1).  Each round walks j to the next line
starting with 0, checks the three asserts (reading lines[j] raises
IndexError when j equals the length), builds the Entry from the slice
lines[i:j] and continues at j. -/
def chunkLoop (lines : List String) (fsd ncc : Bool) (endIdx : Nat) :
    Nat → Nat → Except PyErr (List Entry)
  | 0, _ => .error .assertionError
  | fuel + 1, i =>
    if i ≤ endIdx then
      if nextZero (lines.drop (i + 1)) (i + 1) ≤ endIdx + 1 then
        match lines.get? i with
        | none => .error .indexError
        | some li =>
          if startsWith0 li then
            match lines.get? (nextZero (lines.drop (i + 1)) (i + 1)) with
            | none => .error .indexError
            | some lj =>
              if startsWith0 lj then
                match mk_entry
                    ((lines.drop i).take (nextZero (lines.drop (i + 1)) (i + 1) - i))
                    fsd ncc with
                | .error e => .error e
                | .ok ent =>
                  match chunkLoop lines fsd ncc endIdx fuel
                      (nextZero (lines.drop (i + 1)) (i + 1)) with
                  | .error e => .error e
                  | .ok rest => .ok (ent :: rest)
              else .error .assertionError
          else .error .assertionError
      else .error .assertionError
    else .ok []

/-- The body of gedcom_file.py _get_section_entries after the end index has
been computed: raise RuntimeError when exactly one boundary is defined,
return no entries when the start index is falsy (None, or the integer 0 —
Python truthiness at line 159), and otherwise run the chunking loop. -/
def section_entries_with_end (lines : List String) (fsd ncc : Bool) (k : SectionKind)
    (endI : Option Nat) : Except PyErr (List Entry) :=
  if ((get_section_start_index lines k).isNone ≠ endI.isNone) then .error .runtimeError
  else
    match get_section_start_index lines k with
    | none => .ok []
    | some s =>
      if s = 0 then .ok []
      else
        match endI with
        | none => .error .assertionError
        | some e => chunkLoop lines fsd ncc e (e + 2) s

/-- gedcom_file.py _get_section_entries: compute both boundary indexes
(an IndexError from the end scan propagates), then dispatch on them. -/
def get_section_entries (lines : List String) (fsd ncc : Bool) (k : SectionKind) :
    Except PyErr (List Entry) :=
  match get_section_end_index lines k with
  | .error e => .error e
  | .ok endI => section_entries_with_end lines fsd ncc k endI

/-! ## Line codec round trip (claim C1) -/

theorem mk_data (s : String) : String.mk s.data = s := by
  cases s; rfl

theorem isDigitCh_space : isDigitCh ' ' = false := by decide

theorem isTagCh_space : isTagCh ' ' = false := by decide

/-- The optional value part of a serialized line: empty when absent,
space-prefixed when present. -/
def opt_val_part (v : Option String) : String :=
  match v with
  | none => ""
  | some r => " " ++ r

/-- Parsing a line assembled from canonical depth notation, a valid tag and
an optional value recovers exactly those components. -/
theorem from_str_of_parts (d : Nat) (tag : String) (v : Option String)
    (htag : tag.data ≠ [] ∧ ∀ c ∈ tag.data, isTagCh c = true) :
    Line.from_str (natToStr d ++ " " ++ tag ++ opt_val_part v) = some ⟨d, tag, v⟩ := by
  cases v with
  | none =>
    have hdata : (natToStr d ++ " " ++ tag ++ "").data
        = (natToStr d).data ++ ' ' :: (tag.data ++ []) := by
      simp [String.data_append]
    have hspan1 : spanCh isDigitCh ((natToStr d).data ++ ' ' :: (tag.data ++ []))
        = ((natToStr d).data, ' ' :: (tag.data ++ [])) := by
      apply spanCh_exact
      · exact natToStr_digits d
      · intro y yr hy
        cases hy
        exact isDigitCh_space
    have hspan2 : spanCh isTagCh (tag.data ++ [])
        = (tag.data, []) := by
      apply spanCh_exact
      · exact htag.2
      · intro y yr hy
        simp at hy
    show Line.from_str (natToStr d ++ " " ++ tag ++ "") = some ⟨d, tag, none⟩
    unfold Line.from_str
    rw [hdata, hspan1]
    simp only [natToStr_ne_nil d, if_false]
    rw [hspan2]
    simp only [htag.1, if_false]
    simp [natOfDigits_natToStr, mk_data]
  | some r =>
    have hdata : (natToStr d ++ " " ++ tag ++ (" " ++ r)).data
        = (natToStr d).data ++ ' ' :: (tag.data ++ (' ' :: r.data)) := by
      simp [String.data_append]
    have hspan1 : spanCh isDigitCh ((natToStr d).data ++ ' ' :: (tag.data ++ (' ' :: r.data)))
        = ((natToStr d).data, ' ' :: (tag.data ++ (' ' :: r.data))) := by
      apply spanCh_exact
      · exact natToStr_digits d
      · intro y yr hy
        cases hy
        exact isDigitCh_space
    have hspan2 : spanCh isTagCh (tag.data ++ (' ' :: r.data))
        = (tag.data, ' ' :: r.data) := by
      apply spanCh_exact
      · exact htag.2
      · intro y yr hy
        cases hy
        exact isTagCh_space
    show Line.from_str (natToStr d ++ " " ++ tag ++ (" " ++ r)) = some ⟨d, tag, some r⟩
    unfold Line.from_str
    rw [hdata, hspan1]
    simp only [natToStr_ne_nil d, if_false]
    rw [hspan2]
    simp only [htag.1, if_false]
    simp [natOfDigits_natToStr, mk_data]

/-- Claim C1 (counterexample): the well-formed line with depth field 01
parses, but serializing the parse yields the normalized depth 1, not the
original string. -/
theorem C1_counterexample :
    Line.from_str ("01 NAME X") = some ⟨1, "NAME", some ("X")⟩ ∧
    (Line.from_str ("01 NAME X")).map Line.to_str = some ("1 NAME X") ∧
    (Line.from_str ("01 NAME X")).map Line.to_str ≠ some ("01 NAME X") := by
  refine ⟨rfl, rfl, ?_⟩
  decide

/-- Claim C1 (amended): for every well-formed line whose depth field is in
canonical decimal notation (no leading zeros, which is exactly the image of
natToStr) and whose optional value is newline-free, serializing the parsed
Line reproduces the line exactly. -/
theorem C1_line_roundtrip (d : Nat) (tag : String) (v : Option String)
    (htag : tag.data ≠ [] ∧ ∀ c ∈ tag.data, isTagCh c = true)
    (_hnl : ∀ r, v = some r → '\n' ∉ r.data) :
    (Line.from_str (natToStr d ++ " " ++ tag ++ opt_val_part v)).map Line.to_str
      = some (natToStr d ++ " " ++ tag ++ opt_val_part v) := by
  rw [from_str_of_parts d tag v htag]
  show some (Line.to_str ⟨d, tag, v⟩) = some (natToStr d ++ " " ++ tag ++ opt_val_part v)
  congr 1
  cases v with
  | none => simp [Line.to_str, opt_val_part, String.append_empty]
  | some r => simp [Line.to_str, opt_val_part, String.append_assoc]

/-- Witness for C1: the concrete line 1 NAME X round trips. -/
theorem C1_line_roundtrip_witness :
    (Line.from_str (natToStr 1 ++ " " ++ "NAME"
      ++ opt_val_part (some ("X")))).map Line.to_str
      = some (natToStr 1 ++ " " ++ "NAME" ++ opt_val_part (some ("X"))) := by
  exact C1_line_roundtrip 1 ("NAME") (some ("X")) (by decide)
    (by intro r hr; cases hr; decide)

/-! ## Closed evaluations settling the continuation and flattener claims -/

/-- Claim C2 (code bug): the preserve-policy round trip never happens.  The
decode path stores the body correctly, but the encode path (the lines
property, entry.py add_cont_conc) raises NameError on every call because the
staticmethod reads self.ENTRY_DEBUG; and even with the broken debug guards
removed, a value-less stored line is re-emitted with the literal text None
appended (the unconditional f-string at entry.py line 428), while any line
with a value still raises NameError at self._CONT_PLACEHOLDER. -/
theorem C2_encode_not_roundtrip :
    mk_entry ["0 @I1@ INDI", "1 NOTE hello"] false false
      = .ok ⟨"@I1@", "INDI", false, false, [⟨1, "NOTE", some ("hello")⟩]⟩ ∧
    entry_lines ⟨"@I1@", "INDI", false, false, [⟨1, "NOTE", some ("hello")⟩]⟩
      = .error .nameError ∧
    mk_entry ["0 @I1@ INDI", "1 DEAT"] false false
      = .ok ⟨"@I1@", "INDI", false, false, [⟨1, "DEAT", none⟩]⟩ ∧
    add_cont_conc_nodebug [Line.to_str ⟨1, "DEAT", none⟩] = .ok ["1 DEAT None"] ∧
    add_cont_conc_nodebug [Line.to_str ⟨1, "NOTE", some ("hello")⟩] = .error .nameError ∧
    (["1 DEAT None"] : List String) ≠ ["1 DEAT"] := by
  refine ⟨rfl, rfl, rfl, rfl, rfl, ?_⟩
  decide

/-- Claim C3 (code bug): on scenario B the discard policy of entry.py keeps
the owner line unchanged — the placeholder is assigned to the local variable
prev_line (entry.py lines 263 and 266) and never written back into ret —
while the parse.py version of the same function produces the placeholder
that the claim (and entry.py's own docstring example) describe. -/
theorem C3_discard_placeholder_lost :
    remove_cont_conc ["1 NOTE Long text", "2 CONT more text"]
      = .ok ["1 NOTE Long text"] ∧
    mk_entry ["0 @I1@ INDI", "1 NOTE Long text", "2 CONT more text"] false true
      = .ok ⟨"@I1@", "INDI", false, true, [⟨1, "NOTE", some ("Long text")⟩]⟩ ∧
    remove_cont_concP ["1 NOTE Long text", "2 CONT more text"]
      = .ok ["1 NOTE Long text<<MISSING DATA>>"] ∧
    (["1 NOTE Long text"] : List String) ≠ ["1 NOTE Long text<<MISSING DATA>>"] := by
  refine ⟨rfl, rfl, rfl, ?_⟩
  decide

/-- Claim C4 (code bug): the truncation branch of remove_cont_conc does
produce an exactly-80-character line, but the add_cont_conc half of the
claim cannot hold — the encode split raises NameError on every call (and
its debug-stripped variant still raises NameError on any line with a
value), so no emitted line exists. -/
theorem C4_length_bound_and_encode_crash :
    remove_cont_conc
      ["1 NOTE aaaaaaaaaaaaaaaaaaaaaaaaaaaaaaaaaaaaaaaaaaaaaaaaaaaaaaaaaaaaaaaaaa",
       "2 CONT x"]
      = .ok ["1 NOTE aaaaaaaaaaaaaaaaaaaaaaaaaaaaaaaaaaaaaaaaaaaaaaaaaaaaaaaaa<<MISSING DATA>>"] ∧
    pyLen ("1 NOTE aaaaaaaaaaaaaaaaaaaaaaaaaaaaaaaaaaaaaaaaaaaaaaaaaaaaaaaaa<<MISSING DATA>>")
      = 80 ∧
    pyLen ("1 NOTE aaaaaaaaaaaaaaaaaaaaaaaaaaaaaaaaaaaaaaaaaaaaaaaaaaaaaaaaaaaaaaaaaa")
      > GEDCOM_MAX_LINE_LENGTH - pyLen MISSING_DATA_PLACEHOLDER ∧
    add_cont_conc
      ["1 NOTE aaaaaaaaaaaaaaaaaaaaaaaaaaaaaaaaaaaaaaaaaaaaaaaaaaaaaaaaaaaaaaaaaa"]
      = .error .nameError ∧
    add_cont_conc_nodebug
      ["1 NOTE aaaaaaaaaaaaaaaaaaaaaaaaaaaaaaaaaaaaaaaaaaaaaaaaaaaaaaaaaaaaaaaaaa"]
      = .error .nameError := by
  refine ⟨rfl, by decide, by decide, rfl, rfl⟩

/-- Claim C5 (code bug): with two sibling NAME blocks each carrying a GIVN
child, entry.py disambiguates the parent NAME key itself using its tilde
separator, so the row keys are NAME, NAME+GIVN, NAME~1 and NAME~1+GIVN —
not the NAME+GIVN and NAME+GIVN_1 of the claim and of the code's own
comment (entry.py lines 499-503); the older parse.py behaves the same way
except with an underscore. -/
theorem C5_sibling_keys :
    to_col_name_dict ⟨"@I1@", "INDI", false, false,
        [⟨1, "NAME", some ("A")⟩, ⟨2, "GIVN", some ("X")⟩,
         ⟨1, "NAME", some ("B")⟩, ⟨2, "GIVN", some ("Y")⟩]⟩
      = .ok [("id", "@I1@"), ("tag_type", "INDI"), ("NAME", "A"), ("NAME+GIVN", "X"),
             ("NAME~1", "B"), ("NAME~1+GIVN", "Y")] ∧
    to_col_name_dictP ⟨"@I1@", "INDI", false, false,
        [⟨1, "NAME", some ("A")⟩, ⟨2, "GIVN", some ("X")⟩,
         ⟨1, "NAME", some ("B")⟩, ⟨2, "GIVN", some ("Y")⟩]⟩
      = .ok [("id", "@I1@"), ("tag_type", "INDI"), ("NAME", "A"), ("NAME+GIVN", "X"),
             ("NAME_1", "B"), ("NAME_1+GIVN", "Y")] ∧
    (["id", "tag_type", "NAME", "NAME+GIVN", "NAME~1", "NAME~1+GIVN"] : List String)
      ≠ ["id", "tag_type", "NAME", "NAME+GIVN", "NAME+GIVN~1", "NAME+GIVN_1"] := by
  refine ⟨rfl, rfl, ?_⟩
  decide

/-- Claim C9 (code bug): flattening a DATE line with a value under
force_string_dates raises NameError in entry.py (the guard at line 493
reads the undefined name tag), and the older parse.py variant prefixes the
quote unconditionally, so an already-quoted value is doubled. -/
theorem C9_date_quote_bug :
    to_col_name_dict ⟨"@I1@", "INDI", true, false, [⟨1, "DATE", some ("1876")⟩]⟩
      = .error .nameError ∧
    to_col_name_dictP ⟨"@I1@", "INDI", true, false, [⟨1, "DATE", some (squote ++ "1876")⟩]⟩
      = .ok [("id", "@I1@"), ("tag_type", "INDI"), ("DATE", squote ++ squote ++ "1876")] ∧
    squote ++ squote ++ "1876" ≠ squote ++ "1876" := by
  refine ⟨rfl, rfl, ?_⟩
  decide

/-- Claim C7 (code bug): when the section's first header sits at line index
0 of the file, _get_section_entries returns no records at all, because the
guard at gedcom_file.py line 159 tests the integer truthiness of the start
index (elif start_line_index) and 0 is falsy; shifting the same input down
by one header line yields the expected two-record partition. -/
theorem C7_partition_start_zero :
    get_section_start_index
        ["0 @I1@ INDI", "1 NAME A", "0 @I2@ INDI", "1 NAME B", "0 TRLR"] .indi
      = some 0 ∧
    get_section_end_index
        ["0 @I1@ INDI", "1 NAME A", "0 @I2@ INDI", "1 NAME B", "0 TRLR"] .indi
      = .ok (some 3) ∧
    get_section_entries
        ["0 @I1@ INDI", "1 NAME A", "0 @I2@ INDI", "1 NAME B", "0 TRLR"]
        false false .indi
      = .ok [] ∧
    get_section_entries
        ["0 HEAD", "0 @I1@ INDI", "1 NAME A", "0 @I2@ INDI", "1 NAME B", "0 TRLR"]
        false false .indi
      = .ok [⟨"@I1@", "INDI", false, false, [⟨1, "NAME", some ("A")⟩]⟩,
             ⟨"@I2@", "INDI", false, false, [⟨1, "NAME", some ("B")⟩]⟩] := by
  exact ⟨rfl, rfl, rfl, rfl⟩

/-- Claim C8 (counterexample): on this input both scans reach the single
matching header (the forward scan returns index 1; index 1 is a matching
line above index 0, which is where the backward scan looks), yet extraction
raises a hard error — an IndexError from the end scan walking past the end
of the list, not the boundary RuntimeError, and not the no-error outcome
the claim requires when no boundary is half-defined. -/
theorem C8_counterexample :
    get_section_start_index ["1 X", "0 @I1@ INDI", "1 NAME"] .indi = some 1 ∧
    (∃ i x, 0 < i ∧ (["1 X", "0 @I1@ INDI", "1 NAME"] : List String).get? i = some x ∧
      sectionRe .indi x = true) ∧
    get_section_end_index ["1 X", "0 @I1@ INDI", "1 NAME"] .indi = .error .indexError ∧
    get_section_entries ["1 X", "0 @I1@ INDI", "1 NAME"] false false .indi
      = .error .indexError := by
  exact ⟨rfl, ⟨1, "0 @I1@ INDI", by omega, rfl, rfl⟩, rfl, rfl⟩

/-! ## Row well-formedness (claim C6) -/

theorem joinPlus_snoc : ∀ (pre : List String) (x : String), pre ≠ [] →
    joinPlus (pre ++ [x]) = joinPlus pre ++ ("+" ++ x) := by
  intro pre
  induction pre with
  | nil => intro x h; exact absurd rfl h
  | cons p ps ih =>
    intro x _
    cases ps with
    | nil =>
      show joinPlus [p, x] = joinPlus [p] ++ ("+" ++ x)
      simp [joinPlus, String.append_assoc]
    | cons q qs =>
      show joinPlus (p :: ((q :: qs) ++ [x])) = joinPlus (p :: q :: qs) ++ ("+" ++ x)
      have h1 : joinPlus (p :: ((q :: qs) ++ [x]))
          = p ++ "+" ++ joinPlus ((q :: qs) ++ [x]) := rfl
      rw [h1, ih x (by simp), ← String.append_assoc]
      rfl

theorem data_length_append (a b : String) :
    (a ++ b).data.length = a.data.length + b.data.length := by
  simp [String.data_append]

theorem natToStr_data_ne_nil (n : Nat) : (natToStr n).data ≠ [] := natToStr_ne_nil n

theorem suffTag_inj (sep tag : String) (hsep : sep.data ≠ []) :
    ∀ s₁ s₂ : Nat, suffTag sep tag s₁ = suffTag sep tag s₂ → s₁ = s₂ := by
  intro s₁ s₂ h
  match s₁, s₂ with
  | 0, 0 => rfl
  | 0, s₂ + 1 =>
    exfalso
    simp only [suffTag, Nat.succ_ne_zero, if_false, if_true] at h
    have := congrArg (fun s => s.data.length) h
    simp only [data_length_append] at this
    have h1 : sep.data.length ≠ 0 := by
      intro hz
      exact hsep (List.eq_nil_of_length_eq_zero hz)
    have h2 : (natToStr (s₂ + 1)).data.length ≠ 0 := by
      intro hz
      exact natToStr_data_ne_nil (s₂ + 1) (List.eq_nil_of_length_eq_zero hz)
    omega
  | s₁ + 1, 0 =>
    exfalso
    simp only [suffTag, Nat.succ_ne_zero, if_false, if_true] at h
    have := congrArg (fun s => s.data.length) h
    simp only [data_length_append] at this
    have h1 : sep.data.length ≠ 0 := by
      intro hz
      exact hsep (List.eq_nil_of_length_eq_zero hz)
    have h2 : (natToStr (s₁ + 1)).data.length ≠ 0 := by
      intro hz
      exact natToStr_data_ne_nil (s₁ + 1) (List.eq_nil_of_length_eq_zero hz)
    omega
  | s₁ + 1, s₂ + 1 =>
    simp only [suffTag, Nat.succ_ne_zero, if_false] at h
    rw [String.append_assoc, String.append_assoc] at h
    have := string_append_right_cancel tag _ _ h
    have := string_append_right_cancel sep _ _ this
    exact natToStr_injective _ _ this

theorem candKey_inj (sep : String) (hsep : sep.data ≠ []) (pre : List String) (tag : String) :
    ∀ s₁ s₂ : Nat, candKey sep pre tag s₁ = candKey sep pre tag s₂ → s₁ = s₂ := by
  intro s₁ s₂ h
  unfold candKey at h
  by_cases hpre : pre = []
  · subst hpre
    simp only [List.nil_append] at h
    exact suffTag_inj sep tag hsep s₁ s₂ h
  · rw [joinPlus_snoc pre _ hpre, joinPlus_snoc pre _ hpre] at h
    have := string_append_right_cancel (joinPlus pre) _ _ h
    have := string_append_right_cancel ("+") _ _ this
    exact suffTag_inj sep tag hsep s₁ s₂ this

/-- The collision loop always lands on a key that is not yet in the row:
with fuel exceeding the number of keys minus the rounds already tried, a
free candidate exists by pigeonhole (the candidates are pairwise distinct). -/
theorem suffix_loop_fresh (sep : String) (hsep : sep.data ≠ [])
    (keys pre : List String) (tag : String) :
    ∀ fuel s₀, (∀ s, s < s₀ → candKey sep pre tag s ∈ keys) →
      keys.length < fuel + s₀ →
      joinPlus (suffix_loop sep keys pre tag fuel s₀) ∉ keys := by
  intro fuel
  induction fuel with
  | zero =>
    intro s₀ hall hlen
    exfalso
    have hnodup : ((List.range s₀).map (candKey sep pre tag)).Nodup := by
      apply List.Nodup.map_on
      · intro a _ b _ hfab
        exact candKey_inj sep hsep pre tag a b hfab
      · exact List.nodup_range s₀
    have hsub : ((List.range s₀).map (candKey sep pre tag)) ⊆ keys := by
      intro x hx
      simp only [List.mem_map, List.mem_range] at hx
      obtain ⟨s, hs, rfl⟩ := hx
      exact hall s hs
    have := (hnodup.subperm hsub).length_le
    simp only [List.length_map, List.length_range] at this
    omega
  | succ fuel ih =>
    intro s₀ hall hlen
    by_cases hmem : candKey sep pre tag s₀ ∈ keys
    · have hstep : suffix_loop sep keys pre tag (fuel + 1) s₀
          = suffix_loop sep keys pre tag fuel (s₀ + 1) := by
        simp [suffix_loop, hmem]
      rw [hstep]
      apply ih (s₀ + 1)
      · intro s hs
        rcases Nat.lt_succ_iff_lt_or_eq.mp hs with h | h
        · exact hall s h
        · subst h; exact hmem
      · omega
    · have hstep : suffix_loop sep keys pre tag (fuel + 1) s₀
          = pre ++ [suffTag sep tag s₀] := by
        simp [suffix_loop, hmem]
      rw [hstep]
      exact hmem

/-- The value a successful flatten stores for a line: the empty-line
placeholder when the value is absent, the value itself otherwise. -/
def flat_value_pure (l : Line) : String :=
  match l.tag_value with
  | none => EMPTY_LINE_PLACEHOLDER
  | some v => v

theorem flat_value_ok (fsd : Bool) (l : Line) (v : String)
    (h : flat_value fsd l = .ok v) : v = flat_value_pure l := by
  unfold flat_value at h
  unfold flat_value_pure
  cases htv : l.tag_value with
  | none => rw [htv] at h; cases h; rfl
  | some w =>
    rw [htv] at h
    by_cases hc : l.tag = "DATE" ∧ fsd = true
    · simp [hc] at h
    · simp only [hc, if_false] at h
      cases h; rfl

/-- Invariant of the flatten loop: a successful run keeps the keys nodup
(each appended key is fresh by suffix_loop_fresh) and appends exactly one
value per line, in order. -/
theorem to_col_aux_wf (sep : String) (hsep : sep.data ≠ [])
    (fv : Line → Except PyErr String) (fvP : Line → String)
    (hfv : ∀ l v, fv l = .ok v → v = fvP l) :
    ∀ (ls : List Line) (ret : List (String × String)) (tags : List String)
      (row : List (String × String)),
      to_col_aux sep fv ret tags ls = .ok row →
      ((ret.map Prod.fst).Nodup → (row.map Prod.fst).Nodup) ∧
      row.map Prod.snd = ret.map Prod.snd ++ ls.map fvP := by
  intro ls
  induction ls with
  | nil =>
    intro ret tags row h
    have : ret = row := by
      simpa [to_col_aux] using h
    subst this
    exact ⟨fun hh => hh, by simp⟩
  | cons l rest ih =>
    intro ret tags row h
    unfold to_col_aux at h
    cases hfvl : fv l with
    | error e => rw [hfvl] at h; cases h
    | ok v =>
      rw [hfvl] at h
      have hfresh := suffix_loop_fresh sep hsep (ret.map Prod.fst)
        (trunc_tags tags l.depth) l.tag ((ret.map Prod.fst).length + 1) 0
        (by intro s hs; omega) (by omega)
      have := ih (ret ++ [(joinPlus (suffix_loop sep (ret.map Prod.fst)
        (trunc_tags tags l.depth) l.tag ((ret.map Prod.fst).length + 1) 0), v)])
        (suffix_loop sep (ret.map Prod.fst) (trunc_tags tags l.depth) l.tag
          ((ret.map Prod.fst).length + 1) 0) row h
      refine ⟨?_, ?_⟩
      · intro hnd
        apply this.1
        simp only [List.map_append, List.map_cons, List.map_nil]
        rw [List.nodup_append]
        refine ⟨hnd, by simp, ?_⟩
        intro a ha hb
        simp only [List.mem_singleton] at hb
        subst hb
        exact hfresh ha
      · rw [this.2, hfv l v hfvl]
        simp

/-- Claim C6: any row the entry.py flattener actually produces has pairwise
distinct keys, and its values are exactly the id, the record type, and one
value per stored line in order, where a line without a value contributes
the fixed empty-line placeholder (never null, never omitted). -/
theorem C6_row_wellformed (e : Entry) (row : List (String × String))
    (h : to_col_name_dict e = .ok row) :
    (row.map Prod.fst).Nodup ∧
    row.map Prod.snd = e.id :: e.type :: e.lines.map flat_value_pure := by
  have := to_col_aux_wf "~" (by decide) (flat_value e.force_string_dates)
    flat_value_pure (flat_value_ok e.force_string_dates) e.lines
    [("id", e.id), ("tag_type", e.type)] [] row h
  refine ⟨this.1 (by simp), ?_⟩
  rw [this.2]
  simp

/-- Witness for C6 at a concrete record with a value-less line. -/
theorem C6_row_wellformed_witness :
    (([("id", "@I1@"), ("tag_type", "INDI"), ("NAME", "A"),
       ("DEAT", "<<NONE>>")] : List (String × String)).map Prod.fst).Nodup ∧
    ([("id", "@I1@"), ("tag_type", "INDI"), ("NAME", "A"),
      ("DEAT", "<<NONE>>")] : List (String × String)).map Prod.snd
      = "@I1@" :: "INDI"
        :: ([⟨1, "NAME", some ("A")⟩, ⟨1, "DEAT", none⟩] : List Line).map flat_value_pure :=
  C6_row_wellformed
    ⟨"@I1@", "INDI", false, false, [⟨1, "NAME", some ("A")⟩, ⟨1, "DEAT", none⟩]⟩
    [("id", "@I1@"), ("tag_type", "INDI"), ("NAME", "A"), ("DEAT", "<<NONE>>")]
    rfl

/-! ## Section boundary errors (claim C8) -/

theorem endScanInner_ne_runtime :
    ∀ (l : List String) (i : Nat), endScanInner l i ≠ .error .runtimeError := by
  intro l
  induction l with
  | nil => intro i h; cases h
  | cons a rest ih =>
    intro i h
    unfold endScanInner at h
    split at h
    · cases h
    · split at h
      · cases h
      · split at h
        · cases h
        · exact ih (i + 1) h

theorem endScanOuter_ne_runtime (lines : List String) (pat : String → Bool) :
    ∀ i : Nat, endScanOuter lines pat i ≠ .error .runtimeError := by
  intro i
  induction i with
  | zero => intro h; cases h
  | succ i ih =>
    intro h
    unfold endScanOuter at h
    by_cases hp : pat (lines.getD (i + 1) "") = true
    · rw [if_pos hp] at h
      exact endScanInner_ne_runtime _ _ h
    · simp only [Bool.not_eq_true] at hp
      rw [hp] at h
      simp only [Bool.false_eq_true, if_false] at h
      exact ih h

theorem get_section_end_index_ne_runtime (lines : List String) (k : SectionKind) :
    get_section_end_index lines k ≠ .error .runtimeError :=
  endScanOuter_ne_runtime lines (sectionRe k) (lines.length - 1)

theorem remove_aux_err :
    ∀ (xs : List String) (skip : Bool) (ret : List String) (e : PyErr),
      remove_aux skip ret xs = .error e → e = .assertionError := by
  intro xs
  induction xs with
  | nil => intro skip ret e h; cases h
  | cons x rest ih =>
    intro skip ret e h
    unfold remove_aux at h
    split at h
    · split at h
      · exact ih true ret e h
      · split at h
        · cases h; rfl
        · split at h
          · exact ih true _ e h
          · exact ih true ret e h
    · exact ih false _ e h

theorem collapse_aux_err :
    ∀ (xs : List String) (ret : List String) (e : PyErr),
      collapse_aux ret xs = .error e → e = .assertionError := by
  intro xs
  induction xs with
  | nil => intro ret e h; cases h
  | cons x rest ih =>
    intro ret e h
    unfold collapse_aux at h
    split at h
    · split at h
      · cases h; rfl
      · split at h
        · exact ih _ e h
        · exact ih _ e h
    · split at h
      · split at h
        · cases h; rfl
        · split at h
          · cases h; rfl
          · exact ih _ e h
      · exact ih _ e h

theorem parse_lines_err :
    ∀ (xs : List String) (e : PyErr), parse_lines xs = .error e → e = .valueError := by
  intro xs
  induction xs with
  | nil => intro e h; cases h
  | cons x rest ih =>
    intro e h
    unfold parse_lines at h
    split at h
    · cases h; rfl
    · split at h
      · rename_i heq
        cases h
        exact ih _ heq
      · cases h

theorem mk_entry_ne_runtime (lines : List String) (fsd ncc : Bool) :
    mk_entry lines fsd ncc ≠ .error .runtimeError := by
  intro h
  unfold mk_entry at h
  split at h
  · cases h
  · split at h
    · cases h
    · split at h
      · rename_i e heq
        cases h
        by_cases hncc : ncc = true
        · rw [if_pos hncc] at heq
          cases remove_aux_err _ false [] _ heq
        · rw [if_neg hncc] at heq
          cases collapse_aux_err _ [] _ heq
      · split at h
        · rename_i e heq
          cases h
          cases parse_lines_err _ _ heq
        · cases h

theorem chunkLoop_ne_runtime (lines : List String) (fsd ncc : Bool) (endIdx : Nat) :
    ∀ (fuel i : Nat), chunkLoop lines fsd ncc endIdx fuel i ≠ .error .runtimeError := by
  intro fuel
  induction fuel with
  | zero => intro i h; cases h
  | succ fuel ih =>
    intro i h
    unfold chunkLoop at h
    split at h
    · split at h
      · split at h
        · cases h
        · split at h
          · split at h
            · cases h
            · split at h
              · split at h
                · rename_i e heq
                  cases h
                  exact mk_entry_ne_runtime _ fsd ncc heq
                · split at h
                  · rename_i e heq
                    cases h
                    exact ih _ heq
                  · cases h
              · cases h
          · cases h
      · cases h
    · cases h

theorem startScan_none (pat : String → Bool) :
    ∀ (l : List String) (i : Nat), startScan pat l i = none → ∀ x ∈ l, pat x = false := by
  intro l
  induction l with
  | nil => intro i _ x hx; cases hx
  | cons a rest ih =>
    intro i h x hx
    unfold startScan at h
    by_cases ha : pat a = true
    · rw [if_pos ha] at h; cases h
    · rw [if_neg ha] at h
      rcases List.mem_cons.mp hx with hxa | hxr
      · subst hxa
        simpa using ha
      · exact ih (i + 1) h x hxr

theorem sectionRe_empty (k : SectionKind) : sectionRe k ("") = false := by
  cases k <;> rfl

theorem endScanOuter_of_no_match (lines : List String) (k : SectionKind)
    (hall : ∀ x ∈ lines, sectionRe k x = false) :
    ∀ i : Nat, endScanOuter lines (sectionRe k) i = .ok none := by
  intro i
  induction i with
  | zero => rfl
  | succ i ih =>
    have hp : sectionRe k (lines.getD (i + 1) "") = false := by
      rw [List.getD_eq_get?]
      cases hg : lines.get? (i + 1) with
      | none => exact sectionRe_empty k
      | some x => exact hall x (List.get?_mem hg)
    unfold endScanOuter
    rw [hp]
    simpa using ih

/-- Claim C8 (amended): the specific boundary RuntimeError is raised exactly
when the end scan completes and exactly one of the two boundary indexes is
defined; and an absent category (forward scan finds nothing) yields zero
records with no error.  The original if-and-only-if over all hard errors
fails because the end scan itself can raise IndexError even though both
scans reach a matching header (C8_counterexample). -/
theorem C8_boundary_error_iff (lines : List String) (fsd ncc : Bool) (k : SectionKind) :
    ((get_section_entries lines fsd ncc k = .error .runtimeError) ↔
      (∃ endI, get_section_end_index lines k = .ok endI ∧
        (get_section_start_index lines k).isNone ≠ endI.isNone)) ∧
    ((get_section_start_index lines k).isNone = true →
      get_section_entries lines fsd ncc k = .ok []) := by
  have hred_err : ∀ e, get_section_end_index lines k = .error e →
      get_section_entries lines fsd ncc k = .error e := by
    intro e he
    unfold get_section_entries
    rw [he]
  have hred_ok : ∀ endI, get_section_end_index lines k = .ok endI →
      get_section_entries lines fsd ncc k = section_entries_with_end lines fsd ncc k endI := by
    intro endI he
    unfold get_section_entries
    rw [he]
  constructor
  · cases hend : get_section_end_index lines k with
    | error e =>
      have he : e ≠ .runtimeError := by
        intro hh
        subst hh
        exact get_section_end_index_ne_runtime lines k hend
      rw [hred_err e hend]
      constructor
      · intro h
        cases h
        exact absurd rfl he
      · intro ⟨endI, hok, _⟩
        cases hok
    | ok endI =>
      rw [hred_ok endI hend]
      unfold section_entries_with_end
      by_cases hxor : ((get_section_start_index lines k).isNone ≠ endI.isNone)
      · rw [if_pos hxor]
        constructor
        · intro _
          exact ⟨endI, rfl, hxor⟩
        · intro _
          rfl
      · rw [if_neg hxor]
        constructor
        · intro h
          split at h
          · cases h
          · split at h
            · cases h
            · split at h
              · cases h
              · exact absurd h (chunkLoop_ne_runtime lines fsd ncc _ _ _)
        · intro ⟨endI2, hok, hx2⟩
          cases hok
          exact absurd hx2 hxor
  · intro hnone
    have hst : get_section_start_index lines k = none := by
      cases hst : get_section_start_index lines k with
      | none => rfl
      | some s => rw [hst] at hnone; cases hnone
    have hall : ∀ x ∈ lines, sectionRe k x = false :=
      startScan_none (sectionRe k) lines 0 hst
    have hend : get_section_end_index lines k = .ok none :=
      endScanOuter_of_no_match lines k hall (lines.length - 1)
    unfold get_section_entries
    rw [hend]
    unfold section_entries_with_end
    rw [hst]
    simp

/-- Witness for C8 at a concrete input without SOUR records. -/
theorem C8_boundary_error_iff_witness :
    get_section_entries ["0 HEAD", "1 X"] false false .sour = .ok [] :=
  (C8_boundary_error_iff ["0 HEAD", "1 X"] false false .sour).2 rfl

/-- The assert not (cont_match and conc_match) of entry.py
collapse_cont_conc (line 310) can never fire: no line matches both
continuation patterns, since they demand different literals at the same
position.  This justifies modelling the branch order without the assert. -/
theorem cont_conc_not_both (s : String) :
    cont_match s = none ∨ conc_match s = none := by
  unfold cont_match conc_match
  by_cases h : (spanCh isDigitCh s.data).1 = []
  · left
    simp [h]
  · simp only [h, if_false]
    split
    · rename_i rest heq
      right
      rw [heq]
      rfl
    · left
      rfl

/-! ## Bare continuation tags (claim C10) -/

/-- A line consisting of digits, one space and a bare CONT or CONC tag (no
trailing space, no value) matches neither continuation regex, and carries no
trailing newline. -/
theorem bare_cont_no_match (ds : List Char)
    (hds : ds ≠ [] ∧ ∀ c ∈ ds, isDigitCh c = true)
    (t : String) (ht : t = "CONT" ∨ t = "CONC") :
    cont_match (String.mk ds ++ " " ++ t) = none ∧
    conc_match (String.mk ds ++ " " ++ t) = none ∧
    stripNl (String.mk ds ++ " " ++ t) = String.mk ds ++ " " ++ t := by
  have hdata : ∀ u : String, (String.mk ds ++ " " ++ u).data = ds ++ ' ' :: u.data := by
    intro u
    simp [String.data_append]
  have hspan : ∀ u : String, spanCh isDigitCh (ds ++ ' ' :: u.data)
      = (ds, ' ' :: u.data) := by
    intro u
    exact spanCh_exact isDigitCh ds (' ' :: u.data) hds.2
      (by intro y yr hy; cases hy; exact isDigitCh_space)
  rcases ht with ht | ht <;> subst ht
  · refine ⟨?_, ?_, ?_⟩
    · unfold cont_match
      rw [hdata, hspan]
      simp [hds.1]
    · unfold conc_match
      rw [hdata, hspan]
      simp [hds.1]
    · unfold stripNl
      rw [hdata]
      simp [List.getLast?_append]
  · refine ⟨?_, ?_, ?_⟩
    · unfold cont_match
      rw [hdata, hspan]
      simp [hds.1]
    · unfold conc_match
      rw [hdata, hspan]
      simp [hds.1]
    · unfold stripNl
      rw [hdata]
      simp [List.getLast?_append]

/-- Appending a line that matches neither continuation regex to the input of
remove_cont_conc appends it, unchanged, to the output. -/
theorem remove_aux_snoc (s : String)
    (h1 : cont_match s = none) (h2 : conc_match s = none) (h3 : stripNl s = s) :
    ∀ (xs : List String) (skip : Bool) (ret : List String),
      remove_aux skip ret (xs ++ [s])
        = (remove_aux skip ret xs).map (fun r => r ++ [s]) := by
  intro xs
  induction xs with
  | nil =>
    intro skip ret
    show remove_aux skip ret [s] = (Except.ok ret).map (fun r => r ++ [s])
    unfold remove_aux
    rw [h3, h1, h2]
    simp [remove_aux, Except.map]
  | cons x xs ih =>
    intro skip ret
    show remove_aux skip ret (x :: (xs ++ [s]))
        = (remove_aux skip ret (x :: xs)).map (fun r => r ++ [s])
    unfold remove_aux
    split
    · split
      · exact ih true ret
      · split
        · rfl
        · split
          · exact ih true _
          · exact ih true ret
    · exact ih false _

/-- Appending a line that matches neither continuation regex to the input of
collapse_cont_conc appends it, unchanged, to the output. -/
theorem collapse_aux_snoc (s : String)
    (h1 : cont_match s = none) (h2 : conc_match s = none) (h3 : stripNl s = s) :
    ∀ (xs : List String) (ret : List String),
      collapse_aux ret (xs ++ [s])
        = (collapse_aux ret xs).map (fun r => r ++ [s]) := by
  intro xs
  induction xs with
  | nil =>
    intro ret
    show collapse_aux ret [s] = (Except.ok ret).map (fun r => r ++ [s])
    unfold collapse_aux
    rw [h3, h1, h2]
    simp [collapse_aux, Except.map]
  | cons x xs ih =>
    intro ret
    show collapse_aux ret (x :: (xs ++ [s]))
        = (collapse_aux ret (x :: xs)).map (fun r => r ++ [s])
    unfold collapse_aux
    split
    · split
      · rfl
      · split
        · exact ih _
        · exact ih _
    · split
      · split
        · rfl
        · split
          · rfl
          · exact ih _
      · exact ih _

/-- Claim C10: a body line that is exactly digits, a space and a bare CONT
or CONC tag (no trailing space, no value) is recognised by neither
continuation pattern, and under both policies it is kept as an ordinary
line of its own — appended unchanged after the processing of the preceding
lines, never folded into or replaced on the previous owner line. -/
theorem C10_bare_continuation_kept (ds : List Char)
    (hds : ds ≠ [] ∧ ∀ c ∈ ds, isDigitCh c = true)
    (t : String) (ht : t = "CONT" ∨ t = "CONC") (pre : List String) :
    cont_match (String.mk ds ++ " " ++ t) = none ∧
    conc_match (String.mk ds ++ " " ++ t) = none ∧
    remove_cont_conc (pre ++ [String.mk ds ++ " " ++ t])
      = (remove_cont_conc pre).map (fun r => r ++ [String.mk ds ++ " " ++ t]) ∧
    collapse_cont_conc (pre ++ [String.mk ds ++ " " ++ t])
      = (collapse_cont_conc pre).map (fun r => r ++ [String.mk ds ++ " " ++ t]) := by
  have h := bare_cont_no_match ds hds t ht
  exact ⟨h.1, h.2.1,
    remove_aux_snoc _ h.1 h.2.1 h.2.2 pre false [],
    collapse_aux_snoc _ h.1 h.2.1 h.2.2 pre []⟩

/-- Witness for C10: the bare line 1 CONT after an ordinary NOTE line stays
a separate line under both policies. -/
theorem C10_bare_continuation_kept_witness :
    cont_match (String.mk ['1'] ++ " " ++ "CONT") = none ∧
    conc_match (String.mk ['1'] ++ " " ++ "CONT") = none ∧
    remove_cont_conc (["1 NOTE x"] ++ [String.mk ['1'] ++ " " ++ "CONT"])
      = (remove_cont_conc ["1 NOTE x"]).map
          (fun r => r ++ [String.mk ['1'] ++ " " ++ "CONT"]) ∧
    collapse_cont_conc (["1 NOTE x"] ++ [String.mk ['1'] ++ " " ++ "CONT"])
      = (collapse_cont_conc ["1 NOTE x"]).map
          (fun r => r ++ [String.mk ['1'] ++ " " ++ "CONT"]) :=
  C10_bare_continuation_kept ['1'] (by decide) ("CONT") (Or.inl rfl) ["1 NOTE x"]

end GedcomSpec
